import Mathlib

/-!
Verification of the billing-cycle / liability / cash-flow / trends core of the
ASR finance dashboard.  The definitions below are shallow embeddings of the
Python source files `helpers.py`, `finance_dashboard.py` and `ui_sections.py`:
calendar dates become a `(year, month, day)` structure over `Int`/`Nat`
(the proleptic Gregorian calendar, which is what Python's `datetime.date`
and `dateutil.relativedelta` implement), pandas frames become lists of
records, and monetary floats become rationals with an explicit 2-decimal
rounding function.
-/

namespace Asr

/-- A calendar date, as in Python `datetime.date`, but with an unbounded
integer year so that month arithmetic is total. -/
structure Date where
  year : Int
  month : Nat
  day : Nat
deriving DecidableEq

/-- Strict calendar order on dates (lexicographic on year, month, day),
matching Python's `date` comparison. -/
def dateLt (a b : Date) : Prop :=
  a.year < b.year ∨ (a.year = b.year ∧ (a.month < b.month ∨ (a.month = b.month ∧ a.day < b.day)))

/-- Non-strict calendar order on dates. -/
def dateLe (a b : Date) : Prop :=
  dateLt a b ∨ a = b

instance (a b : Date) : Decidable (dateLt a b) := by
  unfold dateLt; infer_instance

instance (a b : Date) : Decidable (dateLe a b) := by
  unfold dateLe; infer_instance

/-- `calendar.isleap` (Python): divisible by 4 and not by 100, or divisible
by 400.  Python's `%` on a positive modulus coincides with `Int.emod`. -/
def isLeap (y : Int) : Bool :=
  (y % 4 == 0 && !(y % 100 == 0)) || (y % 400 == 0)

/-- Number of days of a month, as returned by `calendar.monthrange(y, m)[1]`
(equivalently by the `month_range` helper of `finance_dashboard.py`).
Only months 1..12 are ever used by the embedded code. -/
def daysInMonth (y : Int) (m : Nat) : Nat :=
  if m = 2 then (if isLeap y then 29 else 28)
  else if m = 4 ∨ m = 6 ∨ m = 9 ∨ m = 11 then 30
  else 31

/-- Shift `(year, month)` by `k` calendar months with year carry/borrow, the
month arithmetic underlying `dateutil.relativedelta(months=k)`. -/
def addMonths (y : Int) (m : Nat) (k : Int) : Int × Nat :=
  let t : Int := y * 12 + ((m : Int) - 1) + k
  (t / 12, (t % 12).toNat + 1)

/-- `helpers.safe_date`: clamp the day into `1 ..= daysInMonth y m`. -/
def safe_date (y : Int) (m d : Nat) : Date :=
  ⟨y, m, max 1 (min d (daysInMonth y m))⟩

/-- `finance_dashboard.safe_date`: clamps the day only from above
(`min(day, last_day)`; no `max(1, ...)`). -/
def safe_date_fd (y : Int) (m d : Nat) : Date :=
  ⟨y, m, min d (daysInMonth y m)⟩

/-- `helpers.shift_month`: shift by `k` months keeping the day if possible.
The source anchors at day 15 (`date(d.year, d.month, 15) + relativedelta(months=k)`),
which only serves to move `(year, month)` by `k` months (day 15 exists in
every month), and then takes `min(d.day, end.day)`. -/
def shift_month (d : Date) (k : Int) : Date :=
  let ym := addMonths d.year d.month k
  ⟨ym.1, ym.2, min d.day (daysInMonth ym.1 ym.2)⟩

/-- `start_date - relativedelta(months=1)` as used by
`finance_dashboard.get_overridden_cycle`: `relativedelta` moves the month
back by one (borrowing from the year) and clamps the day to the target
month's length. -/
def subOneMonthRel (d : Date) : Date :=
  let ym := addMonths d.year d.month (-1)
  ⟨ym.1, ym.2, min d.day (daysInMonth ym.1 ym.2)⟩

/-- An instrument's day-based cycle rule (`card_row` / `BILL_CYCLES` entry):
`(cycle_start_day, cycle_end_day, due_day, due_offset_months)`. -/
structure Rule where
  id : String
  start_day : Nat
  end_day : Nat
  due_day : Nat
  due_offset : Nat
deriving DecidableEq

/-- Rules whose day fields are nominal calendar-day markers in `1..31` with a
due offset in `0..3` (spec §3, claims C1/C2/C10). -/
def ValidRule (r : Rule) : Prop :=
  1 ≤ r.start_day ∧ r.start_day ≤ 31 ∧
  1 ≤ r.end_day ∧ r.end_day ≤ 31 ∧
  1 ≤ r.due_day ∧ r.due_day ≤ 31 ∧
  r.due_offset ≤ 3

instance (r : Rule) : Decidable (ValidRule r) := by
  unfold ValidRule; infer_instance

/-- Iteration core of the `while due_month > 12: due_month -= 12;
due_year += 1` loop of `helpers.cycle_window_for_month`.  The first argument
is a structural-recursion bound; every loop iteration strictly decreases
`dm`, so a bound of `dm` itself (as used in `carryDueMonth`) always
suffices and the bound never cuts an iteration short. -/
def carryDueMonthGo : Nat → Int → Nat → Int × Nat
  | 0, y, dm => (y, dm)
  | fuel + 1, y, dm => if dm > 12 then carryDueMonthGo fuel (y + 1) (dm - 12) else (y, dm)

/-- The `while due_month > 12: due_month -= 12; due_year += 1` loop of
`helpers.cycle_window_for_month`. -/
def carryDueMonth (y : Int) (dm : Nat) : Int × Nat :=
  carryDueMonthGo dm y dm

/-- `helpers.cycle_window_for_month`: returns
`(cycle_start, cycle_end, bill_gen_date, due_date)`. -/
def cycle_window_for_month (r : Rule) (year : Int) (month : Nat) :
    Date × Date × Date × Date :=
  let cycle_end := safe_date year month r.end_day
  let cycle_start0 := safe_date year month r.start_day
  let cycle_start :=
    if r.start_day > r.end_day then shift_month cycle_start0 (-1) else cycle_start0
  let yd := carryDueMonth year (month + r.due_offset)
  let due_dt := safe_date yd.1 yd.2 r.due_day
  (cycle_start, cycle_end, cycle_end, due_dt)

/-- One record of `st.session_state.card_date_overrides` in
`finance_dashboard.py`, with its composite string key `"YYYY-MM::Card"`
modelled as the structured key `(year, month, card)` it encodes, and its ISO
date strings modelled as the dates they parse to (a record whose strings do
not parse is skipped by the `try/except` and behaves as absent). -/
structure FdOverride where
  year : Int
  month : Nat
  card : String
  ostart : Date
  oend : Date
  odue : Date
deriving DecidableEq

/-- `finance_dashboard.get_overridden_cycle` (with `fallback_from_days=True`,
the only mode the embedded call sites use): per-month date override first,
else compute from the day-based cycle `rule = BILL_CYCLES[card]`. -/
def get_overridden_cycle (ovs : List FdOverride) (card : String) (rule : Rule)
    (year : Int) (month : Nat) : Date × Date × Date × Date :=
  match ovs.find? (fun o => o.year == year && o.month == month && o.card == card) with
  | some o => (o.ostart, o.oend, o.oend, o.odue)
  | none =>
    let cycle_end := safe_date_fd year month rule.end_day
    let start_date := safe_date_fd year month rule.start_day
    let cycle_start :=
      if rule.start_day > rule.end_day then subOneMonthRel start_date else start_date
    let dm : Nat := month + rule.due_offset
    let due_year : Int := year + ((dm - 1) / 12 : Nat)
    let due_month : Nat := (dm - 1) % 12 + 1
    let due_dt := safe_date_fd due_year due_month rule.due_day
    (cycle_start, cycle_end, cycle_end, due_dt)

-- ---------- overrides (helpers.py side) ----------

/-- One element of the overrides list consumed by `helpers.get_override_for`:
a per-(card, year, month) record with explicit cycle dates.  The source
stores ISO strings and parses them with `date.fromisoformat`; here they are
modelled as the dates they parse to. -/
structure OverrideRec where
  card_id : String
  year : Int
  month : Nat
  cycle_start : Date
  cycle_end : Date
  due_date : Date
deriving DecidableEq

/-- `helpers.get_override_for`: first list entry whose (card_id, year, month)
matches. -/
def get_override_for (card_id : String) (year : Int) (month : Nat)
    (overrides : List OverrideRec) : Option OverrideRec :=
  overrides.find? (fun ov => ov.card_id == card_id && ov.year == year && ov.month == month)

/-- `helpers.get_effective_cycle`: the override's literal dates when present
(bill generation date = cycle end), else the day-based computation. -/
def get_effective_cycle (card_row : Rule) (year : Int) (month : Nat)
    (overrides : List OverrideRec) : Date × Date × Date × Date :=
  match get_override_for card_row.id year month overrides with
  | some ov => (ov.cycle_start, ov.cycle_end, ov.cycle_end, ov.due_date)
  | none => cycle_window_for_month card_row year month

/-- `helpers.card_bill_due_in_month`: look back `due_offset` months from the
reference month and return that generation month's effective cycle. -/
def card_bill_due_in_month (card_row : Rule) (ref_date : Date)
    (overrides : List OverrideRec) : Date × Date × Date × Date :=
  let target := shift_month ⟨ref_date.year, ref_date.month, 15⟩
    (-(card_row.due_offset : Int))
  get_effective_cycle card_row target.year target.month overrides

-- ---------- due-month search (C4) ----------

/-- Rata-die style day number of a proleptic Gregorian date (days since
1970-01-01), modelling the `.days` of a Python `date` subtraction.  Uses the
standard civil-calendar formula; all divisions have positive divisors, where
Lean's `Int` division is the floor division the formula needs. -/
def toDays (d : Date) : Int :=
  let y : Int := if d.month ≤ 2 then d.year - 1 else d.year
  let m : Int := d.month
  let era : Int := y / 400
  let yoe : Int := y - era * 400
  let mp : Int := if 2 < d.month then m - 3 else m + 9
  let doy : Int := (153 * mp + 2) / 5 + (d.day : Int) - 1
  let doe : Int := yoe * 365 + yoe / 4 - yoe / 100 + doy
  era * 146097 + doe - 719468

/-- `abs((a - b).days)` for Python dates. -/
def absDiffDays (a b : Date) : Nat :=
  (toDays a - toDays b).natAbs

/-- Python `min(x :: xs, key=key)`: the first element achieving the minimal
key. -/
def pyMinByKey (key : α → Nat) (x : α) (xs : List α) : α :=
  xs.foldl (fun b a => if key a < key b then a else b) x

/-- The five candidate cycles of
`finance_dashboard.find_cycle_whose_due_falls_in_month`: the effective
cycles of the generation months `target - 2 .. target + 2` (the source
anchors each shift at day 15 of the target month, which day-15 anchoring
only moves `(year, month)`). -/
def fd_candidates (ovs : List FdOverride) (card : String) (rule : Rule)
    (ty : Int) (tm : Nat) : List (Date × Date × Date × Date) :=
  ([-2, -1, 0, 1, 2] : List Int).map (fun k =>
    let ym := addMonths ty tm k
    get_overridden_cycle ovs card rule ym.1 ym.2)

/-- `due_dt.year == target_year and due_dt.month == target_month`. -/
def dueInTarget (ty : Int) (tm : Nat) (c : Date × Date × Date × Date) : Bool :=
  c.2.2.2.year == ty && c.2.2.2.month == tm

/-- `finance_dashboard.find_cycle_whose_due_falls_in_month`: first candidate
whose due date falls in the target month, else the candidate closest by
absolute day difference from the 15th of the target month.  The empty-list
match arm is unreachable (there are always exactly five candidates). -/
def find_cycle_whose_due_falls_in_month (ovs : List FdOverride) (card : String)
    (rule : Rule) (ty : Int) (tm : Nat) : Date × Date × Date × Date :=
  match (fd_candidates ovs card rule ty tm).find? (dueInTarget ty tm) with
  | some c => c
  | none =>
    match fd_candidates ovs card rule ty tm with
    | [] => (⟨ty, tm, 15⟩, ⟨ty, tm, 15⟩, ⟨ty, tm, 15⟩, ⟨ty, tm, 15⟩)
    | c :: rest => pyMinByKey (fun c => absDiffDays c.2.2.2 ⟨ty, tm, 15⟩) c rest

/-- The claim's five-candidate due-month search read against the
helpers-side effective cycle: what C4 asserts `card_bill_due_in_month`
examines. -/
def eff_candidates (r : Rule) (ty : Int) (tm : Nat) (ovs : List OverrideRec) :
    List (Date × Date × Date × Date) :=
  ([-2, -1, 0, 1, 2] : List Int).map (fun k =>
    let ym := addMonths ty tm k
    get_effective_cycle r ym.1 ym.2 ovs)

-- ---------- liability aggregation (C5) ----------

/-- Two-decimal rounding `round(x, 2)` on the rational model of monetary
floats.  Mathlib's `round` on `ℚ` is round-half-up; every use in the
verified claims evaluates away from tie points, where all rounding
conventions (including Python's float round-half-even) agree. -/
def round2 (q : ℚ) : ℚ :=
  ((round (q * 100) : ℤ) : ℚ) / 100

/-- One normalized transaction row: `Date`, `Amount`, derived `Card`
(None = unresolved), `type` (the transaction kind string), and the
pass-through text columns. -/
structure Txn where
  date : Date
  category : String
  amount : ℚ
  note : String
  payment_mode : String
  tags : String
  card : Option String
  kind : String
deriving DecidableEq

/-- `str.lower()`: characterwise lowercasing of a string (the kernel-computable equivalent of `String.toLower`). -/
def strLower (s : String) : String :=
  String.mk (s.data.map Char.toLower)

/-- The row mask of `sum_liability` (both variants): resolved card equals
the requested card, `type.lower() == "expense"`, positive amount, and date
within the inclusive window. -/
def liabilityMask (card_name : String) (start_dt end_dt : Date) (t : Txn) : Bool :=
  t.card == some card_name && strLower t.kind == "expense" &&
    decide (0 < t.amount) && decide (dateLe start_dt t.date) &&
    decide (dateLe t.date end_dt)

/-- Stable insertion for `sort_values("Date")` on the filtered rows. -/
def insertByDate (t : Txn) : List Txn → List Txn
  | [] => [t]
  | u :: us => if decide (dateLe u.date t.date) then u :: insertByDate t us
               else t :: u :: us

/-- `DataFrame.sort_values("Date")` on the filtered rows (any date-sorted
permutation is observationally equal for the sum, the count and row
membership, which is all the claims consume). -/
def sortByDate : List Txn → List Txn
  | [] => []
  | t :: ts => insertByDate t (sortByDate ts)

/-- `helpers.sum_liability`: filtered subset sorted by date, 2-decimal
rounded total (`round(float(...), 2)`), and match count. -/
def sum_liability (df : List Txn) (card_name : String) (start_dt end_dt : Date) :
    List Txn × ℚ × Nat :=
  let sub := sortByDate (df.filter (liabilityMask card_name start_dt end_dt))
  (sub, if sub.isEmpty then 0 else round2 ((sub.map (fun t => t.amount)).sum),
    sub.length)

/-- `finance_dashboard.sum_liability`: identical filter, but the total is
the raw `float(sub["Amount"].sum())`, not rounded. -/
def sum_liability_fd (df : List Txn) (card_name : String) (start_dt end_dt : Date) :
    List Txn × ℚ × Nat :=
  let sub := sortByDate (df.filter (liabilityMask card_name start_dt end_dt))
  (sub, if sub.isEmpty then 0 else (sub.map (fun t => t.amount)).sum, sub.length)

-- ---------- cash-flow simulator (C6) ----------

/-- One simulator event of `ui_sections.cashflow_section`: a dated, labelled
inflow (`flow == "in"`) or outflow with a monetary amount. -/
structure CashEvent where
  date : Date
  label : String
  amount : ℚ
  flowIn : Bool
deriving DecidableEq

/-- Sort rank of the flow direction: `0 if e["flow"] == "in" else 1`. -/
def flowRank (e : CashEvent) : Nat :=
  if e.flowIn then 0 else 1

/-- The `(date, inflow-before-outflow, label)` lexicographic sort key of
`cashflow_section`'s `_priority`. -/
def evLe (a b : CashEvent) : Prop :=
  dateLt a.date b.date ∨
    (a.date = b.date ∧ (flowRank a < flowRank b ∨
      (flowRank a = flowRank b ∧ a.label ≤ b.label)))

instance (a b : CashEvent) : Decidable (evLe a b) := by
  unfold evLe; infer_instance

/-- `sorted(events, key=_priority)` (Python's sort is stable; keys here are
the full `(date, rank, label)` triple). -/
def sortEvents (evs : List CashEvent) : List CashEvent :=
  List.insertionSort evLe evs

/-- One loop step: `amt = round(amount, 2)`; the balance is re-rounded to 2
decimals after adding or subtracting. -/
def simStep (b : ℚ) (e : CashEvent) : ℚ :=
  if e.flowIn then round2 (b + round2 e.amount) else round2 (b - round2 e.amount)

/-- The `Balance After` column produced by the simulator loop. -/
def simBalances (b : ℚ) : List CashEvent → List ℚ
  | [] => []
  | e :: es => simStep b e :: simBalances (simStep b e) es

/-- `ui_sections.cashflow_section`: running balance starts at
`round(float(start_balance) + float(extra_buffer), 2)` and the events are
processed in `(date, inflow-first, label)` order. -/
def cashflow_sim (start_balance extra_buffer : ℚ) (evs : List CashEvent) :
    List ℚ :=
  simBalances (round2 (start_balance + extra_buffer)) (sortEvents evs)

/-- Signed event sum: inflows count positively, outflows negatively. -/
def signedSum (l : List CashEvent) : ℚ :=
  (l.map (fun e => if e.flowIn then e.amount else -e.amount)).sum

/-- Monetary values with exactly 2 decimal places (the data model's
fixed-2-decimal amounts). -/
def TwoDec (q : ℚ) : Prop :=
  ∃ n : ℤ, q = (n : ℚ) / 100

-- ---------- identity resolver (C7) ----------

/-- Character list of a string literal. -/
def chars (s : String) : List Char :=
  s.data

/-- Word characters for the `\b` boundaries of Python's `re` (the
descriptors in the data are ASCII). -/
def isWordChar (c : Char) : Bool :=
  c.isAlpha || c.isDigit || c == '_'

/-- Whitespace for the `\s*` separators inside the patterns. -/
def isSpaceChar (c : Char) : Bool :=
  c == ' ' || c == '\t' || c == '\n' || c == '\r'

/-- Match a literal word at the head of the text, returning the remainder. -/
def stripWord : List Char → List Char → Option (List Char)
  | [], rest => some rest
  | _ :: _, [] => none
  | u :: us, c :: cs => if c == u then stripWord us cs else none

/-- Match a token — one or more literal words joined by `\s*` — at the head
of the text.  Every pattern word starts with a letter, so the greedy
whitespace munch is equivalent to the regex engine's backtracking `\s*`. -/
def stripToken : List (List Char) → List Char → Option (List Char)
  | [], rest => some rest
  | u :: us, rest =>
    match stripWord u rest with
    | none => none
    | some r => stripToken us (if us.isEmpty then r else r.dropWhile isSpaceChar)

/-- The `\b token \b` test at one position: a word boundary before (the
previous character, if any, is not a word character) and after. -/
def tokenAt (tok : List (List Char)) (prev : Option Char) (s : List Char) : Bool :=
  (match prev with
   | none => true
   | some c => !isWordChar c) &&
  (match stripToken tok s with
   | some [] => true
   | some (c :: _) => !isWordChar c
   | none => false)

/-- `re.search` of an alternation of word-bounded tokens: some alternative
matches at some position of the text. -/
def searchAlts (alts : List (List (List Char))) : Option Char → List Char → Bool
  | prev, [] => alts.any (fun tok => tokenAt tok prev [])
  | prev, c :: cs =>
    alts.any (fun tok => tokenAt tok prev (c :: cs)) || searchAlts alts (some c) cs

/-- Plain substring containment (`"closed" in text`). -/
def containsSub (needle : List Char) : List Char → Bool
  | [] => (stripWord needle []).isSome
  | c :: cs => (stripWord needle (c :: cs)).isSome || containsSub needle cs

/-- `CARD_REGEX` of `finance_dashboard.py`.  Each Python pattern is an
alternation of word-bounded tokens:
`\b(amex|american\s*express|plat(?:inum)?)\b` matches `amex`,
`american\s*express`, `plat` or `platinum` as whole words (for a boolean
`re.search` the optional group makes `plat` and `platinum` the two
alternatives), and similarly for the others. -/
def CARD_REGEX : List ((List (List (List Char))) × String) :=
  [([[chars "amex"], [chars "american", chars "express"], [chars "plat"],
      [chars "platinum"]], "Amex"),
   ([[chars "icici"], [chars "ici"]], "ICICI"),
   ([[chars "sbi"]], "SBI"),
   ([[chars "onecard"], [chars "oncecard"]], "One"),
   ([[chars "hsbc", chars "cash"], [chars "hsbcl"], [chars "cashback"]],
     "HSBC Cash"),
   ([[chars "hsbc"]], "HSBC")]

/-- The pattern loop of `detect_card`: at the first matching pattern, a
match whose name is "One" with a "closed" marker in the text returns
unresolved, otherwise the pattern's name. -/
def detectLoop : List ((List (List (List Char))) × String) → List Char → Option String
  | [], _ => none
  | (pat, name) :: rest, text =>
    if searchAlts pat none text then
      (if name == "One" && containsSub (chars "closed") text then none else some name)
    else detectLoop rest text

/-- `finance_dashboard.detect_card`: empty descriptor is unresolved, then an
exact-string override lookup, then the lowercased text is run through the
ordered pattern list. -/
def detect_card (overrides : List (String × String)) (payment_mode : String) :
    Option String :=
  if payment_mode = "" then none
  else
    match overrides.lookup payment_mode with
    | some v => some v
    | none => detectLoop CARD_REGEX (strLower payment_mode).data

/-- First matching pattern name without the "closed" suppression (the
claim's notion of "matches some card pattern"). -/
def firstPatternName : List ((List (List (List Char))) × String) → List Char →
    Option String
  | [], _ => none
  | (pat, name) :: rest, text =>
    if searchAlts pat none text then some name else firstPatternName rest text

-- ---------- CSV ingestion (C8) ----------

/-- One raw CSV row after the pandas coercions:
`pd.to_datetime(..., errors="coerce")` yields `none` (NaT) for an
unparseable date, `pd.to_numeric(..., errors="coerce")` yields `none` (NaN)
for an unparseable amount, and a missing `type` / `Payment mode` cell is
`none` (NaN). -/
structure RawRow where
  date : Option Date
  amount : Option ℚ
  ptype : Option String
  payment_mode : Option String
  category : String
  note : String
  tags : String
deriving DecidableEq

/-- One normalized row (`type` is the `kind` string column). -/
structure NormRow where
  date : Date
  amount : ℚ
  ptype : String
  payment_mode : String
  category : String
  note : String
  tags : String
deriving DecidableEq

/-- The per-row normalization of `helpers.normalize_csv`: amount
`fillna(0.0).round(2)`, `type` and `Payment mode` `fillna("")`. -/
def normRowOf (r : RawRow) (d : Date) : NormRow :=
  ⟨d, round2 (r.amount.getD 0), r.ptype.getD "", r.payment_mode.getD "",
    r.category, r.note, r.tags⟩

/-- `helpers.normalize_csv` row handling (after the required-column check,
which rejects whole feeds and is out of scope of the row-level claim): rows
with unparseable dates are dropped and their count is the reported
`logger.warning` figure; every other row is kept with its amount coerced.
Returns the kept rows and the dropped count. -/
def normalize_csv (rows : List RawRow) : List NormRow × Nat :=
  (rows.filterMap (fun r =>
      match r.date with
      | none => none
      | some d => some (normRowOf r d)),
   rows.countP (fun r => r.date.isNone))

/-- The module-level normalization block of `finance_dashboard.py`
(lines 321–326): drops NaT-date rows the same way, but reports no count
and does not round the coerced amount. -/
def normalize_block (rows : List RawRow) : List NormRow :=
  rows.filterMap (fun r =>
    match r.date with
    | none => none
    | some d =>
      some ⟨d, r.amount.getD 0, r.ptype.getD "", r.payment_mode.getD "",
        r.category, r.note, r.tags⟩)

-- ---------- trend anomalies (C9) ----------

/-- Insertion into an ascending list of rationals. -/
def insertRat (x : ℚ) : List ℚ → List ℚ
  | [] => [x]
  | y :: ys => if decide (y ≤ x) then y :: insertRat x ys else x :: y :: ys

/-- Ascending sort of a series' values, as pandas sorts before taking the
median. -/
def sortRat : List ℚ → List ℚ
  | [] => []
  | x :: xs => insertRat x (sortRat xs)

/-- `pandas.Series.median`: NaN (`none`) on an empty series; otherwise the
middle element of the sorted values, or the mean of the two middle elements
when the length is even.  For odd length the two indices coincide and the
mean of an element with itself is that element. -/
def median (l : List ℚ) : Option ℚ :=
  match (sortRat l).get? (((sortRat l).length - 1) / 2),
      (sortRat l).get? ((sortRat l).length / 2) with
  | some a, some b => some ((a + b) / 2)
  | _, _ => none

/-- The anomaly flags of `style_anomalies_and_caps` for one instrument
column over the active display window: `series_for_med` drops the last row
when the exclude option is set, the table is non-empty and its last index
is the selected month; the median is taken over the strictly positive
values; `if med and med > 0` skips all flagging when the median is NaN
(NaN is truthy but `NaN > 0` is false) or zero; otherwise a month is
flagged iff its value exceeds `1.5 * med`. -/
def style_anomalies (excludeFlag lastIsSelected : Bool) (col : List ℚ) :
    List Bool :=
  match median ((if excludeFlag && decide (0 < col.length) && lastIsSelected then
      col.dropLast
    else col).filter (fun v => decide (0 < v))) with
  | some med =>
    if 0 < med then col.map (fun v => decide ((3 / 2 : ℚ) * med < v))
    else List.replicate col.length false
  | none => List.replicate col.length false

-- ---------- theorems ----------

-- ---------- basic calendar lemmas ----------

theorem daysInMonth_pos (y : Int) (m : Nat) : 1 ≤ daysInMonth y m := by
  unfold daysInMonth
  split
  · split <;> omega
  · split <;> omega

theorem daysInMonth_ge_28 (y : Int) (m : Nat) : 28 ≤ daysInMonth y m := by
  unfold daysInMonth
  split
  · split <;> omega
  · split <;> omega

theorem addMonths_month_range (y : Int) (m : Nat) (k : Int) :
    1 ≤ (addMonths y m k).2 ∧ (addMonths y m k).2 ≤ 12 := by
  simp only [addMonths]
  omega

/-- Going back one month yields a lexicographically smaller `(year, month)`. -/
theorem addMonths_neg_one_lt (y : Int) (m : Nat) (h1 : 1 ≤ m) (h2 : m ≤ 12) :
    (addMonths y m (-1)).1 < y ∨
      ((addMonths y m (-1)).1 = y ∧ (addMonths y m (-1)).2 < m) := by
  unfold addMonths
  simp only
  omega

theorem carryDueMonthGo_of_le (fuel : Nat) (y : Int) (dm : Nat) (h : dm ≤ 12) :
    carryDueMonthGo fuel y dm = (y, dm) := by
  cases fuel with
  | zero => rfl
  | succ n => simp [carryDueMonthGo, show ¬ dm > 12 by omega]

theorem carryDueMonth_of_le (y : Int) (dm : Nat) (h : dm ≤ 12) :
    carryDueMonth y dm = (y, dm) :=
  carryDueMonthGo_of_le dm y dm h

/-- The year-carry while-loop agrees with the modular arithmetic of
`finance_dashboard.get_overridden_cycle` on all reachable inputs
(`dm = month + due_offset ≤ 12 + 3`). -/
theorem carryDueMonth_spec (y : Int) (dm : Nat) (h1 : 1 ≤ dm) (h2 : dm ≤ 15) :
    carryDueMonth y dm = (y + ((dm - 1) / 12 : Nat), (dm - 1) % 12 + 1) := by
  by_cases h : dm ≤ 12
  · rw [carryDueMonth_of_le y dm h]
    simp only [Prod.mk.injEq]
    constructor <;> omega
  · obtain ⟨k, rfl⟩ : ∃ k, dm = k + 1 := ⟨dm - 1, by omega⟩
    unfold carryDueMonth carryDueMonthGo
    rw [if_pos (by omega), carryDueMonthGo_of_le _ _ _ (by omega)]
    simp only [Prod.mk.injEq]
    constructor <;> omega

theorem safe_date_eq_fd (y : Int) (m d : Nat) (hd : 1 ≤ d) :
    safe_date y m d = safe_date_fd y m d := by
  unfold safe_date safe_date_fd
  have := daysInMonth_pos y m
  simp only [Date.mk.injEq, true_and]
  omega

/-- The two shifted-start computations coincide: `helpers` clamps the start
day into the generation month and then shifts back via the day-15 anchor,
`finance_dashboard` clamps and subtracts `relativedelta(months=1)`. -/
theorem shift_start_eq (y : Int) (m s : Nat) (hs : 1 ≤ s) :
    shift_month (safe_date y m s) (-1) = subOneMonthRel (safe_date_fd y m s) := by
  unfold shift_month subOneMonthRel safe_date safe_date_fd
  have := daysInMonth_pos y m
  simp only [Date.mk.injEq, true_and]
  omega

theorem dateLe_same_month (y : Int) (m : Nat) (d1 d2 : Nat) (h : d1 ≤ d2) :
    dateLe ⟨y, m, d1⟩ ⟨y, m, d2⟩ := by
  rcases Nat.lt_or_ge d1 d2 with h' | h'
  · exact Or.inl (Or.inr ⟨rfl, Or.inr ⟨rfl, h'⟩⟩)
  · right
    have hd : d1 = d2 := by omega
    rw [hd]

theorem dateLt_of_ym_lt (a b : Date)
    (h : a.year < b.year ∨ (a.year = b.year ∧ a.month < b.month)) : dateLt a b := by
  unfold dateLt
  tauto

/-- Shared equivalence of the two day-based cycle calculators. -/
theorem cycle_calculators_agree (r : Rule) (card : String) (y : Int)
    (m : Nat) (hr : ValidRule r) (hm1 : 1 ≤ m) (hm2 : m ≤ 12) :
    cycle_window_for_month r y m = get_overridden_cycle [] card r y m := by
  obtain ⟨hs1, hs2, he1, he2, hd1, hd2, ho⟩ := hr
  unfold cycle_window_for_month get_overridden_cycle
  simp only [List.find?_nil]
  have hdue : carryDueMonth y (m + r.due_offset) =
      (y + ((m + r.due_offset - 1) / 12 : Nat), (m + r.due_offset - 1) % 12 + 1) :=
    carryDueMonth_spec y (m + r.due_offset) (by omega) (by omega)
  rw [hdue]
  simp only [Prod.mk.injEq]
  refine ⟨?_, safe_date_eq_fd y m r.end_day he1, safe_date_eq_fd y m r.end_day he1,
    safe_date_eq_fd _ _ r.due_day hd1⟩
  by_cases hse : r.start_day > r.end_day
  · simp only [if_pos hse]
    exact shift_start_eq y m r.start_day hs1
  · simp only [if_neg hse]
    exact safe_date_eq_fd y m r.start_day hs1

/-- C10: the two independent day-based cycle implementations return identical
`(cycle_start, cycle_end, bill_date, due_date)` tuples for every valid rule
and every (year, month). -/
theorem c10_day_based_calculators_agree (r : Rule) (card : String) (y : Int)
    (m : Nat) (hr : ValidRule r) (hm1 : 1 ≤ m) (hm2 : m ≤ 12) :
    cycle_window_for_month r y m = get_overridden_cycle [] card r y m :=
  cycle_calculators_agree r card y m hr hm1 hm2

/-- C10 witness at a concrete valid input. -/
theorem c10_witness :
    cycle_window_for_month ⟨"Amex", 22, 21, 10, 1⟩ 2023 10 =
      get_overridden_cycle [] "Amex" ⟨"Amex", 22, 21, 10, 1⟩ 2023 10 :=
  c10_day_based_calculators_agree ⟨"Amex", 22, 21, 10, 1⟩ "Amex" 2023 10
    (by decide) (by omega) (by omega)

/-- C1: for every valid rule and every (year, month), both day-based cycle
calculators satisfy `cycle_start ≤ cycle_end`. -/
theorem c1_cycle_start_le_cycle_end (r : Rule) (card : String) (y : Int)
    (m : Nat) (hr : ValidRule r) (hm1 : 1 ≤ m) (hm2 : m ≤ 12) :
    dateLe (cycle_window_for_month r y m).1 (cycle_window_for_month r y m).2.1 ∧
      dateLe (get_overridden_cycle [] card r y m).1
        (get_overridden_cycle [] card r y m).2.1 := by
  have hmain : dateLe (cycle_window_for_month r y m).1
      (cycle_window_for_month r y m).2.1 := by
    obtain ⟨hs1, hs2, he1, he2, hd1, hd2, ho⟩ := hr
    unfold cycle_window_for_month
    by_cases hse : r.start_day > r.end_day
    · simp only [if_pos hse]
      left
      apply dateLt_of_ym_lt
      unfold shift_month safe_date
      exact addMonths_neg_one_lt y m hm1 hm2
    · simp only [if_neg hse]
      unfold safe_date
      exact dateLe_same_month y m _ _ (by omega)
  refine ⟨hmain, ?_⟩
  rw [← cycle_calculators_agree r card y m hr hm1 hm2]
  exact hmain

/-- C2 counterexample: for the rule (start 31, end 30, due 10, offset 0) in
generation month April 2023 the start marker is shifted into March and
resolves to 2023-03-30, whereas clamping day 31 down to the last day of its
resolved month (March has 31 days) would give day 31: the start marker is
clamped twice (first into the generation month), not once into its resolved
month. -/
theorem c2_counterexample :
    (cycle_window_for_month ⟨"X", 31, 30, 10, 0⟩ 2023 4).1 = ⟨2023, 3, 30⟩ ∧
      daysInMonth 2023 3 = 31 ∧
      (cycle_window_for_month ⟨"X", 31, 30, 10, 0⟩ 2023 4).1.day ≠
        min 31 (daysInMonth 2023 3) := by
  decide

/-- C2 (amended): the due date lies in the month obtained by adding
`due_offset` to the generation month with a year carry on 12-month overflow,
and the end and due markers are clamped down to the last day of their
resolved months; the start marker is clamped into the generation month and,
when the cycle spans the month boundary, clamped again into the previous
month (so its day is `min start_day (min (len gen) (len prev))`, not
`min start_day (len prev)`). -/
theorem c2_due_month_and_clamping (r : Rule) (y : Int) (m : Nat)
    (hr : ValidRule r) (hm1 : 1 ≤ m) (hm2 : m ≤ 12) :
    ((cycle_window_for_month r y m).2.2.2.year * 12 +
        ((cycle_window_for_month r y m).2.2.2.month : Int) =
       y * 12 + (m : Int) + (r.due_offset : Int)) ∧
    (1 ≤ (cycle_window_for_month r y m).2.2.2.month ∧
       (cycle_window_for_month r y m).2.2.2.month ≤ 12) ∧
    ((cycle_window_for_month r y m).2.2.2.day =
       min r.due_day
         (daysInMonth (cycle_window_for_month r y m).2.2.2.year
           (cycle_window_for_month r y m).2.2.2.month)) ∧
    ((cycle_window_for_month r y m).2.1 = ⟨y, m, min r.end_day (daysInMonth y m)⟩) ∧
    (r.start_day ≤ r.end_day →
       (cycle_window_for_month r y m).1 = ⟨y, m, min r.start_day (daysInMonth y m)⟩) ∧
    (r.end_day < r.start_day →
       (cycle_window_for_month r y m).1.year = (addMonths y m (-1)).1 ∧
       (cycle_window_for_month r y m).1.month = (addMonths y m (-1)).2 ∧
       (cycle_window_for_month r y m).1.day =
         min (min r.start_day (daysInMonth y m))
           (daysInMonth (addMonths y m (-1)).1 (addMonths y m (-1)).2)) := by
  obtain ⟨hs1, hs2, he1, he2, hd1, hd2, ho⟩ := hr
  have hcarry := carryDueMonth_spec y (m + r.due_offset) (by omega) (by omega)
  unfold cycle_window_for_month
  rw [hcarry]
  simp only [safe_date, shift_month]
  refine ⟨by push_cast; omega, ⟨by omega, by omega⟩, ?_, ?_, ?_, ?_⟩
  · have := daysInMonth_pos (y + ((m + r.due_offset - 1) / 12 : Nat))
      ((m + r.due_offset - 1) % 12 + 1)
    omega
  · have := daysInMonth_pos y m
    simp only [Date.mk.injEq, true_and]
    omega
  · intro hse
    have := daysInMonth_pos y m
    rw [if_neg (by omega)]
    simp only [Date.mk.injEq, true_and]
    omega
  · intro hse
    have h1 := daysInMonth_pos y m
    have h2 := daysInMonth_pos (addMonths y m (-1)).1 (addMonths y m (-1)).2
    rw [if_pos (by omega)]
    refine ⟨rfl, rfl, ?_⟩
    simp only
    omega

/-- C2 witness: the spec's own example, December generation month with
offset 1 giving January of the next year, plus a February clamp. -/
theorem c2_witness :
    ((cycle_window_for_month ⟨"W", 22, 21, 31, 1⟩ 2023 12).2.2.2.year * 12 +
        ((cycle_window_for_month ⟨"W", 22, 21, 31, 1⟩ 2023 12).2.2.2.month : Int) =
       2023 * 12 + (12 : Int) + (1 : Int)) ∧
    (1 ≤ (cycle_window_for_month ⟨"W", 22, 21, 31, 1⟩ 2023 12).2.2.2.month ∧
       (cycle_window_for_month ⟨"W", 22, 21, 31, 1⟩ 2023 12).2.2.2.month ≤ 12) ∧
    ((cycle_window_for_month ⟨"W", 22, 21, 31, 1⟩ 2023 12).2.2.2.day =
       min 31
         (daysInMonth (cycle_window_for_month ⟨"W", 22, 21, 31, 1⟩ 2023 12).2.2.2.year
           (cycle_window_for_month ⟨"W", 22, 21, 31, 1⟩ 2023 12).2.2.2.month)) ∧
    ((cycle_window_for_month ⟨"W", 22, 21, 31, 1⟩ 2023 12).2.1 =
       ⟨2023, 12, min 21 (daysInMonth 2023 12)⟩) ∧
    (22 ≤ 21 →
       (cycle_window_for_month ⟨"W", 22, 21, 31, 1⟩ 2023 12).1 =
         ⟨2023, 12, min 22 (daysInMonth 2023 12)⟩) ∧
    (21 < 22 →
       (cycle_window_for_month ⟨"W", 22, 21, 31, 1⟩ 2023 12).1.year =
         (addMonths 2023 12 (-1)).1 ∧
       (cycle_window_for_month ⟨"W", 22, 21, 31, 1⟩ 2023 12).1.month =
         (addMonths 2023 12 (-1)).2 ∧
       (cycle_window_for_month ⟨"W", 22, 21, 31, 1⟩ 2023 12).1.day =
         min (min 22 (daysInMonth 2023 12))
           (daysInMonth (addMonths 2023 12 (-1)).1 (addMonths 2023 12 (-1)).2)) :=
  c2_due_month_and_clamping ⟨"W", 22, 21, 31, 1⟩ 2023 12 (by decide) (by omega)
    (by omega)

/-- C3: an override stored under exactly (instrument, year, month) is
returned unchanged by both effective-cycle lookups, bypassing the rule-based
computation: the result does not depend on the instrument's default rule. -/
theorem c3_override_wins (year : Int) (month : Nat) :
    (∀ (r : Rule) (ovs : List OverrideRec) (ov : OverrideRec),
      get_override_for r.id year month ovs = some ov →
      get_effective_cycle r year month ovs =
        (ov.cycle_start, ov.cycle_end, ov.cycle_end, ov.due_date)) ∧
    (∀ (ovs : List FdOverride) (card : String) (r r' : Rule) (o : FdOverride),
      ovs.find? (fun o => o.year == year && o.month == month && o.card == card) =
          some o →
      get_overridden_cycle ovs card r year month = (o.ostart, o.oend, o.oend, o.odue) ∧
        get_overridden_cycle ovs card r year month =
          get_overridden_cycle ovs card r' year month) := by
  constructor
  · intro r ovs ov h
    unfold get_effective_cycle
    rw [h]
  · intro ovs card r r' o h
    unfold get_overridden_cycle
    rw [h]
    exact ⟨rfl, rfl⟩

/-- C3 witness: a concrete override beats a conflicting default rule in both
lookups. -/
theorem c3_witness :
    get_effective_cycle ⟨"Amex", 22, 21, 10, 1⟩ 2023 10
        [⟨"Amex", 2023, 10, ⟨2023, 9, 25⟩, ⟨2023, 10, 24⟩, ⟨2023, 11, 12⟩⟩] =
      (⟨2023, 9, 25⟩, ⟨2023, 10, 24⟩, ⟨2023, 10, 24⟩, ⟨2023, 11, 12⟩) ∧
    get_overridden_cycle
        [⟨2023, 10, "Amex", ⟨2023, 9, 25⟩, ⟨2023, 10, 24⟩, ⟨2023, 11, 12⟩⟩]
        "Amex" ⟨"Amex", 22, 21, 10, 1⟩ 2023 10 =
      (⟨2023, 9, 25⟩, ⟨2023, 10, 24⟩, ⟨2023, 10, 24⟩, ⟨2023, 11, 12⟩) := by
  have h := c3_override_wins 2023 10
  refine ⟨h.1 ⟨"Amex", 22, 21, 10, 1⟩
    [⟨"Amex", 2023, 10, ⟨2023, 9, 25⟩, ⟨2023, 10, 24⟩, ⟨2023, 11, 12⟩⟩]
    ⟨"Amex", 2023, 10, ⟨2023, 9, 25⟩, ⟨2023, 10, 24⟩, ⟨2023, 11, 12⟩⟩ (by decide), ?_⟩
  exact (h.2 [⟨2023, 10, "Amex", ⟨2023, 9, 25⟩, ⟨2023, 10, 24⟩, ⟨2023, 11, 12⟩⟩]
    "Amex" ⟨"Amex", 22, 21, 10, 1⟩ ⟨"Amex", 22, 21, 10, 1⟩
    ⟨2023, 10, "Amex", ⟨2023, 9, 25⟩, ⟨2023, 10, 24⟩, ⟨2023, 11, 12⟩⟩ (by decide)).1

/-- C1 witness at a concrete valid input (a cycle that spans the month
boundary). -/
theorem c1_witness :
    dateLe (cycle_window_for_month ⟨"SBI", 25, 24, 13, 1⟩ 2024 3).1
        (cycle_window_for_month ⟨"SBI", 25, 24, 13, 1⟩ 2024 3).2.1 ∧
      dateLe (get_overridden_cycle [] "SBI" ⟨"SBI", 25, 24, 13, 1⟩ 2024 3).1
        (get_overridden_cycle [] "SBI" ⟨"SBI", 25, 24, 13, 1⟩ 2024 3).2.1 :=
  c1_cycle_start_le_cycle_end ⟨"SBI", 25, 24, 13, 1⟩ "SBI" 2024 3
    (by decide) (by omega) (by omega)

theorem pyMinByKey_mem (key : α → Nat) (x : α) (xs : List α) :
    pyMinByKey key x xs = x ∨ pyMinByKey key x xs ∈ xs := by
  induction xs generalizing x with
  | nil => exact Or.inl rfl
  | cons a xs ih =>
    unfold pyMinByKey at *
    simp only [List.foldl_cons]
    rcases ih (if key a < key x then a else x) with h | h
    · rw [h]
      split
      · exact Or.inr (List.mem_cons_self a xs)
      · exact Or.inl rfl
    · exact Or.inr (List.mem_cons_of_mem a h)

theorem pyMinByKey_le (key : α → Nat) (x : α) (xs : List α) :
    key (pyMinByKey key x xs) ≤ key x ∧
      ∀ a ∈ xs, key (pyMinByKey key x xs) ≤ key a := by
  induction xs generalizing x with
  | nil => exact ⟨Nat.le_refl _, by simp⟩
  | cons a xs ih =>
    unfold pyMinByKey at *
    simp only [List.foldl_cons]
    have h := ih (if key a < key x then a else x)
    constructor
    · refine le_trans h.1 ?_
      split <;> omega
    · intro b hb
      rcases List.mem_cons.mp hb with rfl | hb
      · refine le_trans h.1 ?_
        split <;> omega
      · exact h.2 b hb

/-- C4 (amended): `find_cycle_whose_due_falls_in_month` examines the five
generation months `target - 2 .. target + 2` and returns the first candidate
whose due date has exactly the target (year, month), falling back to a
candidate with the smallest absolute day difference from the 15th of the
target month; `card_bill_due_in_month`, by contrast, performs no search:
it returns the effective cycle of generation month `target - due_offset`. -/
theorem c4_due_month_search (ovs : List FdOverride) (card : String) (rule : Rule)
    (ty : Int) (tm : Nat) (ovsH : List OverrideRec) (ref : Date) :
    (∀ c, (fd_candidates ovs card rule ty tm).find? (dueInTarget ty tm) = some c →
       find_cycle_whose_due_falls_in_month ovs card rule ty tm = c) ∧
    ((fd_candidates ovs card rule ty tm).find? (dueInTarget ty tm) = none →
       find_cycle_whose_due_falls_in_month ovs card rule ty tm ∈
           fd_candidates ovs card rule ty tm ∧
         ∀ c ∈ fd_candidates ovs card rule ty tm,
           absDiffDays (find_cycle_whose_due_falls_in_month ovs card rule ty tm).2.2.2
               ⟨ty, tm, 15⟩ ≤
             absDiffDays c.2.2.2 ⟨ty, tm, 15⟩) ∧
    card_bill_due_in_month rule ref ovsH =
      get_effective_cycle rule
        (addMonths ref.year ref.month (-(rule.due_offset : Int))).1
        (addMonths ref.year ref.month (-(rule.due_offset : Int))).2 ovsH := by
  refine ⟨?_, ?_, rfl⟩
  · intro c h
    unfold find_cycle_whose_due_falls_in_month
    rw [h]
  · intro h
    rcases hc : fd_candidates ovs card rule ty tm with _ | ⟨c0, rest⟩
    · exact absurd hc (by simp [fd_candidates])
    · have hfc : find_cycle_whose_due_falls_in_month ovs card rule ty tm =
          pyMinByKey (fun c => absDiffDays c.2.2.2 ⟨ty, tm, 15⟩) c0 rest := by
        unfold find_cycle_whose_due_falls_in_month
        rw [hc] at h
        rw [hc, h]
      simp only [hfc, hc]
      constructor
      · rcases pyMinByKey_mem (fun c => absDiffDays c.2.2.2 ⟨ty, tm, 15⟩) c0 rest with
          h' | h'
        · rw [h']
          exact List.mem_cons_self c0 rest
        · exact List.mem_cons_of_mem c0 h'
      · intro c hcmem
        have h' := pyMinByKey_le (fun c => absDiffDays c.2.2.2 ⟨ty, tm, 15⟩) c0 rest
        rcases List.mem_cons.mp hcmem with rfl | hmem
        · exact h'.1
        · exact h'.2 c hmem

/-- C4 witness: with no overrides and the default Amex rule, the search for
November 2023 finds the exact cycle generated in October 2023. -/
theorem c4_witness :
    find_cycle_whose_due_falls_in_month [] "Amex" ⟨"Amex", 22, 21, 10, 1⟩ 2023 11 =
      (⟨2023, 9, 22⟩, ⟨2023, 10, 21⟩, ⟨2023, 10, 21⟩, ⟨2023, 11, 10⟩) :=
  (c4_due_month_search [] "Amex" ⟨"Amex", 22, 21, 10, 1⟩ 2023 11 [] ⟨2023, 11, 15⟩).1
    (⟨2023, 9, 22⟩, ⟨2023, 10, 21⟩, ⟨2023, 10, 21⟩, ⟨2023, 11, 10⟩) (by decide)

/-- C4 counterexample: an override for generation month September 2023 puts
a due date inside November 2023, so the claimed five-candidate search would
return that override cycle (the first exact match); but
`card_bill_due_in_month` looks back exactly `due_offset = 1` months and
returns the rule-computed October cycle instead. -/
theorem c4_counterexample :
    (eff_candidates ⟨"C", 22, 21, 10, 1⟩ 2023 11
          [⟨"C", 2023, 9, ⟨2023, 8, 22⟩, ⟨2023, 9, 21⟩, ⟨2023, 11, 20⟩⟩]).find?
        (dueInTarget 2023 11) =
      some (⟨2023, 8, 22⟩, ⟨2023, 9, 21⟩, ⟨2023, 9, 21⟩, ⟨2023, 11, 20⟩) ∧
    card_bill_due_in_month ⟨"C", 22, 21, 10, 1⟩ ⟨2023, 11, 15⟩
        [⟨"C", 2023, 9, ⟨2023, 8, 22⟩, ⟨2023, 9, 21⟩, ⟨2023, 11, 20⟩⟩] =
      (⟨2023, 9, 22⟩, ⟨2023, 10, 21⟩, ⟨2023, 10, 21⟩, ⟨2023, 11, 10⟩) ∧
    ((⟨2023, 9, 22⟩, ⟨2023, 10, 21⟩, ⟨2023, 10, 21⟩, ⟨2023, 11, 10⟩) :
        Date × Date × Date × Date) ≠
      (⟨2023, 8, 22⟩, ⟨2023, 9, 21⟩, ⟨2023, 9, 21⟩, ⟨2023, 11, 20⟩) := by
  refine ⟨by decide, by decide, by decide⟩

theorem insertByDate_perm (t : Txn) (l : List Txn) :
    (insertByDate t l).Perm (t :: l) := by
  induction l with
  | nil => exact List.Perm.refl _
  | cons u us ih =>
    unfold insertByDate
    split
    · exact ((ih.cons u).trans (List.Perm.swap t u us))
    · exact List.Perm.refl _

theorem sortByDate_perm (l : List Txn) : (sortByDate l).Perm l := by
  induction l with
  | nil => exact List.Perm.refl _
  | cons t ts ih =>
    unfold sortByDate
    exact (insertByDate_perm t (sortByDate ts)).trans (ih.cons t)

theorem round2_zero : round2 0 = 0 := by
  norm_num [round2]

theorem sum_liability_def (df : List Txn) (card_name : String) (s e : Date) :
    sum_liability df card_name s e =
      (sortByDate (df.filter (liabilityMask card_name s e)),
       if (sortByDate (df.filter (liabilityMask card_name s e))).isEmpty then 0
       else round2 (((sortByDate (df.filter (liabilityMask card_name s e))).map
         (fun t => t.amount)).sum),
       (sortByDate (df.filter (liabilityMask card_name s e))).length) := rfl

theorem sum_liability_fd_def (df : List Txn) (card_name : String) (s e : Date) :
    sum_liability_fd df card_name s e =
      (sortByDate (df.filter (liabilityMask card_name s e)),
       if (sortByDate (df.filter (liabilityMask card_name s e))).isEmpty then 0
       else ((sortByDate (df.filter (liabilityMask card_name s e))).map
         (fun t => t.amount)).sum,
       (sortByDate (df.filter (liabilityMask card_name s e))).length) := rfl

/-- C5 (amended): both `sum_liability` variants select exactly the
transactions with the requested resolved card, case-insensitive kind
`expense`, strictly positive amount and date inside the inclusive window,
and return that subset with its cardinality; `helpers.sum_liability`
returns the 2-decimal-rounded sum of the matching amounts, while the
`finance_dashboard.py` variant returns the unrounded raw sum. -/
theorem c5_sum_liability (df : List Txn) (card_name : String) (s e : Date) :
    (∀ t, t ∈ (sum_liability df card_name s e).1 ↔
       (t ∈ df ∧ t.card = some card_name ∧ strLower t.kind = "expense" ∧
         0 < t.amount ∧ dateLe s t.date ∧ dateLe t.date e)) ∧
    (sum_liability df card_name s e).2.1 =
      round2 (((df.filter (liabilityMask card_name s e)).map (fun t => t.amount)).sum) ∧
    (sum_liability df card_name s e).2.2 = df.countP (liabilityMask card_name s e) ∧
    (sum_liability_fd df card_name s e).1 = (sum_liability df card_name s e).1 ∧
    (sum_liability_fd df card_name s e).2.1 =
      ((df.filter (liabilityMask card_name s e)).map (fun t => t.amount)).sum ∧
    (sum_liability_fd df card_name s e).2.2 = df.countP (liabilityMask card_name s e) := by
  have hperm : (sortByDate (df.filter (liabilityMask card_name s e))).Perm
      (df.filter (liabilityMask card_name s e)) := sortByDate_perm _
  have hsum : ((sortByDate (df.filter (liabilityMask card_name s e))).map
        (fun t => t.amount)).sum =
      ((df.filter (liabilityMask card_name s e)).map (fun t => t.amount)).sum :=
    (hperm.map (fun t => t.amount)).sum_eq
  have hempty : (sortByDate (df.filter (liabilityMask card_name s e))).isEmpty = true →
      (df.filter (liabilityMask card_name s e)) = [] := by
    intro hx
    have : sortByDate (df.filter (liabilityMask card_name s e)) = [] :=
      List.isEmpty_iff.mp hx
    exact (this ▸ hperm).symm.eq_nil
  refine ⟨?_, ?_, ?_, rfl, ?_, ?_⟩
  · intro t
    rw [sum_liability_def]
    simp only [hperm.mem_iff, List.mem_filter, liabilityMask, Bool.and_eq_true,
      beq_iff_eq, decide_eq_true_eq]
    tauto
  · rw [sum_liability_def]
    simp only
    split
    · rename_i hx
      rw [hempty hx]
      simp [round2_zero]
    · exact congrArg round2 hsum
  · rw [sum_liability_def]
    simp only [hperm.length_eq]
    rw [← List.countP_eq_length_filter]
  · rw [sum_liability_fd_def]
    simp only
    split
    · rename_i hx
      rw [hempty hx]
      simp
    · exact hsum
  · rw [sum_liability_fd_def]
    simp only [hperm.length_eq]
    rw [← List.countP_eq_length_filter]

/-- C5 counterexample: a single matching transaction of amount 10.556
(`2639/250`): the `finance_dashboard.py` variant returns the raw sum
10.556, which differs from the 2-decimal-rounded sum 10.56 the claim
demands. -/
theorem c5_counterexample :
    (sum_liability_fd
        [⟨⟨2023, 10, 1⟩, "Food", 2639 / 250, "n", "amex plat", "", some "Amex",
          "expense"⟩]
        "Amex" ⟨2023, 9, 22⟩ ⟨2023, 10, 21⟩).2.1 = 2639 / 250 ∧
      round2 (2639 / 250) = 264 / 25 ∧ ((2639 / 250 : ℚ) ≠ 264 / 25) := by
  have hmask : liabilityMask "Amex" ⟨2023, 9, 22⟩ ⟨2023, 10, 21⟩
      ⟨⟨2023, 10, 1⟩, "Food", 2639 / 250, "n", "amex plat", "", some "Amex",
        "expense"⟩ = true := by
    simp only [liabilityMask, Bool.and_eq_true, beq_iff_eq, decide_eq_true_eq]
    refine ⟨⟨⟨⟨by decide, by decide⟩, by norm_num⟩, by decide⟩, by decide⟩
  refine ⟨?_, ?_, by norm_num⟩
  · rw [sum_liability_fd_def]
    simp [sortByDate, insertByDate, hmask]
  · unfold round2
    rw [round_eq]
    norm_num

theorem dateLt_trichot (a b : Date) : dateLt a b ∨ a = b ∨ dateLt b a := by
  rcases a with ⟨ay, am, ad⟩
  rcases b with ⟨cy, cm, cd⟩
  unfold dateLt
  simp only [Date.mk.injEq]
  omega

theorem dateLt_trans {a b c : Date} (hab : dateLt a b) (hbc : dateLt b c) :
    dateLt a c := by
  rcases a with ⟨ay, am, ad⟩
  rcases b with ⟨yy, ym, yd⟩
  rcases c with ⟨cy, cm, cd⟩
  unfold dateLt at *
  omega

theorem evLe_total (a b : CashEvent) : evLe a b ∨ evLe b a := by
  unfold evLe
  rcases dateLt_trichot a.date b.date with h | h | h
  · exact Or.inl (Or.inl h)
  · rcases Nat.lt_trichotomy (flowRank a) (flowRank b) with h' | h' | h'
    · exact Or.inl (Or.inr ⟨h, Or.inl h'⟩)
    · rcases le_total a.label b.label with h'' | h''
      · exact Or.inl (Or.inr ⟨h, Or.inr ⟨h', h''⟩⟩)
      · exact Or.inr (Or.inr ⟨h.symm, Or.inr ⟨h'.symm, h''⟩⟩)
    · exact Or.inr (Or.inr ⟨h.symm, Or.inl h'⟩)
  · exact Or.inr (Or.inl h)

theorem evLe_trans {a b c : CashEvent} (hab : evLe a b) (hbc : evLe b c) :
    evLe a c := by
  unfold evLe at *
  rcases hab with hd | ⟨hd, hr⟩
  · rcases hbc with hd' | ⟨hd', hr'⟩
    · exact Or.inl (dateLt_trans hd hd')
    · exact Or.inl (hd' ▸ hd)
  · rcases hbc with hd' | ⟨hd', hr'⟩
    · exact Or.inl (hd ▸ hd')
    · refine Or.inr ⟨hd.trans hd', ?_⟩
      rcases hr with h1 | ⟨h1, hl1⟩
      · rcases hr' with h2 | ⟨h2, hl2⟩
        · exact Or.inl (h1.trans h2)
        · exact Or.inl (h2 ▸ h1)
      · rcases hr' with h2 | ⟨h2, hl2⟩
        · exact Or.inl (h1 ▸ h2)
        · exact Or.inr ⟨h1.trans h2, hl1.trans hl2⟩

theorem twoDec_add {p q : ℚ} (hp : TwoDec p) (hq : TwoDec q) : TwoDec (p + q) := by
  obtain ⟨n, rfl⟩ := hp
  obtain ⟨m, rfl⟩ := hq
  exact ⟨n + m, by push_cast; ring⟩

theorem twoDec_sub {p q : ℚ} (hp : TwoDec p) (hq : TwoDec q) : TwoDec (p - q) := by
  obtain ⟨n, rfl⟩ := hp
  obtain ⟨m, rfl⟩ := hq
  exact ⟨n - m, by push_cast; ring⟩

theorem twoDec_neg {q : ℚ} (hq : TwoDec q) : TwoDec (-q) := by
  obtain ⟨m, rfl⟩ := hq
  exact ⟨-m, by push_cast; ring⟩

/-- Re-rounding a 2-decimal value is the identity. -/
theorem round2_twoDec {q : ℚ} (hq : TwoDec q) : round2 q = q := by
  obtain ⟨n, rfl⟩ := hq
  unfold round2
  rw [show ((n : ℚ) / 100) * 100 = (n : ℚ) by field_simp, round_intCast]

theorem signedSum_cons (e : CashEvent) (l : List CashEvent) :
    signedSum (e :: l) =
      (if e.flowIn then e.amount else -e.amount) + signedSum l := by
  simp [signedSum]

/-- With 2-decimal inputs, every step of the simulator adds the signed event
amount exactly (the re-rounding is the identity). -/
theorem simStep_twoDec {b : ℚ} (e : CashEvent) (hb : TwoDec b)
    (ha : TwoDec e.amount) :
    simStep b e = b + (if e.flowIn then e.amount else -e.amount) := by
  unfold simStep
  rw [round2_twoDec ha]
  by_cases hf : e.flowIn
  · simp only [hf, if_pos]
    rw [round2_twoDec (twoDec_add hb ha)]
  · simp only [hf, if_neg, Bool.false_eq_true, not_false_iff]
    rw [round2_twoDec (twoDec_sub hb ha)]
    ring

/-- The balance after the (n+1)-st processed event is the starting balance
plus the signed sum of the first n+1 events, for 2-decimal inputs. -/
theorem simBalances_spec (l : List CashEvent) (b : ℚ) (hb : TwoDec b)
    (hl : ∀ e ∈ l, TwoDec e.amount) (n : Nat) (bb : ℚ)
    (h : (simBalances b l).get? n = some bb) :
    bb = b + signedSum (l.take (n + 1)) := by
  induction l generalizing b n with
  | nil => simp [simBalances] at h
  | cons e es ih =>
    have hae : TwoDec e.amount := hl e (List.mem_cons_self e es)
    have hstep := simStep_twoDec e hb hae
    have hstep2 : TwoDec (simStep b e) := by
      rw [hstep]
      by_cases hf : e.flowIn
      · simp only [hf, if_pos]
        exact twoDec_add hb hae
      · simp only [hf, if_neg, Bool.false_eq_true, not_false_iff]
        exact twoDec_add hb (twoDec_neg hae)
    cases n with
    | zero =>
      simp only [simBalances, List.get?] at h
      rw [List.take_succ_cons, List.take_zero, signedSum_cons]
      have : simStep b e = bb := by injection h
      rw [← this, hstep]
      simp [signedSum]
    | succ n =>
      simp only [simBalances, List.get?] at h
      have hrec := ih (simStep b e) hstep2
        (fun x hx => hl x (List.mem_cons_of_mem e hx)) n h
      rw [List.take_succ_cons, signedSum_cons, hrec, hstep]
      ring

/-- C6: the simulator sorts its events by (date ascending, inflow before
outflow, label ascending), and for 2-decimal starting balance, buffer and
amounts (the data model's fixed-point money), the balance after the N-th
processed event equals `start + buffer + Σ inflows − Σ outflows` over the
first N events in that order; each intermediate balance is re-rounded by
construction of `simStep`. -/
theorem c6_cashflow_simulator (start_balance extra_buffer : ℚ)
    (evs : List CashEvent) (hsb : TwoDec start_balance)
    (hbuf : TwoDec extra_buffer) (hamts : ∀ e ∈ evs, TwoDec e.amount) :
    (sortEvents evs).Perm evs ∧
    (sortEvents evs).Sorted evLe ∧
    ∀ n bb, (cashflow_sim start_balance extra_buffer evs).get? n = some bb →
      bb = start_balance + extra_buffer +
        signedSum ((sortEvents evs).take (n + 1)) := by
  haveI : IsTotal CashEvent evLe := ⟨evLe_total⟩
  haveI : IsTrans CashEvent evLe := ⟨fun _ _ _ => evLe_trans⟩
  refine ⟨List.perm_insertionSort evLe evs, List.sorted_insertionSort evLe evs, ?_⟩
  intro n bb h
  unfold cashflow_sim at h
  have hb : TwoDec (round2 (start_balance + extra_buffer)) := by
    rw [round2_twoDec (twoDec_add hsb hbuf)]
    exact twoDec_add hsb hbuf
  have hmem : ∀ e ∈ sortEvents evs, TwoDec e.amount := fun e he =>
    hamts e ((List.perm_insertionSort evLe evs).mem_iff.mp he)
  have := simBalances_spec (sortEvents evs) _ hb hmem n bb h
  rw [this, round2_twoDec (twoDec_add hsb hbuf)]

/-- C6 witness: the spec scenario — starting balance 10000, buffer 5000, one
outflow of 12000 leaves balance 3000, which the theorem equates with
`start + buffer + signed sum of the first processed event`. -/
theorem c6_witness :
    (cashflow_sim 10000 5000 [⟨⟨2025, 9, 10⟩, "Out A", 12000, false⟩]).get? 0 =
        some 3000 ∧
      (3000 : ℚ) = 10000 + 5000 +
        signedSum ((sortEvents [⟨⟨2025, 9, 10⟩, "Out A", 12000, false⟩]).take 1) := by
  have hb : TwoDec ((10000 : ℚ) + 5000) := ⟨1500000, by norm_num⟩
  have hget : (cashflow_sim 10000 5000
      [⟨⟨2025, 9, 10⟩, "Out A", 12000, false⟩]).get? 0 = some 3000 := by
    have hstep := simStep_twoDec (b := round2 ((10000 : ℚ) + 5000))
      ⟨⟨2025, 9, 10⟩, "Out A", (12000 : ℚ), false⟩
      (by rw [round2_twoDec hb]; exact hb) ⟨1200000, by norm_num⟩
    unfold cashflow_sim sortEvents
    simp only [List.insertionSort, List.orderedInsert]
    unfold simBalances
    simp only [List.get?]
    rw [hstep, round2_twoDec hb]
    norm_num
  refine ⟨hget, ?_⟩
  exact (c6_cashflow_simulator 10000 5000 [⟨⟨2025, 9, 10⟩, "Out A", 12000, false⟩]
    ⟨1000000, by norm_num⟩ ⟨500000, by norm_num⟩
    (by
      intro e he
      rcases List.mem_cons.mp he with rfl | he
      · exact ⟨1200000, by norm_num⟩
      · simp at he)).2.2 0 3000 hget

theorem detectLoop_eq (pats : List ((List (List (List Char))) × String))
    (text : List Char) :
    detectLoop pats text =
      match firstPatternName pats text with
      | some n =>
          if n == "One" && containsSub (chars "closed") text then none else some n
      | none => none := by
  induction pats with
  | nil => rfl
  | cons p rest ih =>
    rcases p with ⟨pat, name⟩
    unfold detectLoop firstPatternName
    by_cases hs : searchAlts pat none text
    · rw [if_pos hs, if_pos hs]
    · rw [if_neg hs, if_neg hs]
      exact ih

/-- C7 counterexample: "amex closed" matches the Amex pattern and contains
the "closed" marker, yet `detect_card` resolves it to "Amex", not to
unresolved — the suppression is applied only to the "One" pattern. -/
theorem c7_counterexample :
    detect_card [] "amex closed" = some "Amex" ∧
      searchAlts [[chars "amex"], [chars "american", chars "express"],
          [chars "plat"], [chars "platinum"]] none
          (strLower "amex closed").data = true ∧
      containsSub (chars "closed") (strLower "amex closed").data = true := by
  refine ⟨by decide, by decide, by decide⟩

/-- C7 (amended): the "closed" suppression applies only when the first
matching pattern is the "One" pattern: such a descriptor resolves to
unresolved, while a descriptor whose first matching pattern is any other
instrument resolves to that instrument even if its text contains
"closed". -/
theorem c7_closed_suppression (pm : String) (hpm : pm ≠ "") :
    (firstPatternName CARD_REGEX (strLower pm).data = some "One" →
       containsSub (chars "closed") (strLower pm).data = true →
       detect_card [] pm = none) ∧
    (∀ name, firstPatternName CARD_REGEX (strLower pm).data = some name →
       name ≠ "One" → detect_card [] pm = some name) := by
  have hd : detect_card [] pm = detectLoop CARD_REGEX (strLower pm).data := by
    unfold detect_card
    rw [if_neg hpm]
    rfl
  constructor
  · intro h1 h2
    rw [hd, detectLoop_eq, h1]
    simp [h2]
  · intro name h1 hne
    rw [hd, detectLoop_eq, h1]
    simp only [Bool.and_eq_true, beq_iff_eq]
    rw [if_neg (by simp [hne])]

/-- C7 witness: "onecard closed" first-matches the "One" pattern, contains
"closed", and resolves to unresolved. -/
theorem c7_witness :
    detect_card [] "onecard closed" = none :=
  (c7_closed_suppression "onecard closed" (by decide)).1 (by decide) (by decide)

/-- C8 counterexample: a row whose amount cannot be parsed but whose date
can is retained with amount coerced to 0.00 — it is not dropped, and the
reported dropped-row count stays 0. -/
theorem c8_counterexample :
    (normalize_csv [⟨some ⟨2024, 1, 15⟩, none, some "expense", some "Amex Plat",
        "c", "n", "t"⟩]).1 =
      [⟨⟨2024, 1, 15⟩, 0, "expense", "Amex Plat", "c", "n", "t"⟩] ∧
    (normalize_csv [⟨some ⟨2024, 1, 15⟩, none, some "expense", some "Amex Plat",
        "c", "n", "t"⟩]).2 = 0 := by
  constructor
  · simp [normalize_csv, normRowOf, round2_zero]
  · decide

/-- C8 (amended): rows whose date cannot be parsed are dropped and their
count is the reported figure (reported by `normalize_csv`; the
`finance_dashboard.py` block drops them silently); rows whose amount cannot
be parsed are retained with the amount coerced to 0 (rounded to 2 decimals
by `normalize_csv`); every row with a parseable date is retained; no single
unparseable row rejects the feed. -/
theorem c8_row_errors (rows : List RawRow) :
    (normalize_csv rows).1 = (rows.filter (fun r => r.date.isSome)).map
        (fun r => normRowOf r (r.date.getD ⟨0, 1, 1⟩)) ∧
    (normalize_csv rows).2 = rows.countP (fun r => r.date.isNone) ∧
    (normalize_csv rows).1.length + (normalize_csv rows).2 = rows.length ∧
    (∀ r ∈ rows, ∀ d, r.date = some d → normRowOf r d ∈ (normalize_csv rows).1) ∧
    (normalize_block rows).length = (normalize_csv rows).1.length := by
  refine ⟨?_, rfl, ?_, ?_, ?_⟩
  · induction rows with
    | nil => rfl
    | cons r rs ih =>
      rcases hr : r.date with _ | d <;>
        simp [normalize_csv, List.filterMap_cons, List.filter_cons, hr, ih,
          Option.isSome] at ih ⊢ <;>
        exact ih
  · induction rows with
    | nil => rfl
    | cons r rs ih =>
      rcases hr : r.date with _ | d <;>
        simp [normalize_csv, List.filterMap_cons, List.countP_cons, hr,
          Option.isNone] at ih ⊢ <;>
        omega
  · intro r hr d hd
    simp only [normalize_csv]
    refine List.mem_filterMap.mpr ⟨r, hr, ?_⟩
    simp [hd]
  · induction rows with
    | nil => rfl
    | cons r rs ih =>
      rcases hr : r.date with _ | d <;>
        simp [normalize_csv, normalize_block, List.filterMap_cons, hr] at ih ⊢ <;>
        exact ih

/-- C8 witness: a fully parseable row is retained unchanged (up to the
documented amount coercions). -/
theorem c8_witness :
    normRowOf ⟨some ⟨2024, 1, 15⟩, some 25, some "expense", some "pm", "c", "n",
        "t"⟩ ⟨2024, 1, 15⟩ ∈
      (normalize_csv [⟨some ⟨2024, 1, 15⟩, some 25, some "expense", some "pm",
        "c", "n", "t"⟩]).1 :=
  (c8_row_errors [⟨some ⟨2024, 1, 15⟩, some 25, some "expense", some "pm", "c",
      "n", "t"⟩]).2.2.2.1
    ⟨some ⟨2024, 1, 15⟩, some 25, some "expense", some "pm", "c", "n", "t"⟩
    (List.mem_singleton.mpr rfl) ⟨2024, 1, 15⟩ rfl

theorem insertRat_perm (x : ℚ) (l : List ℚ) : (insertRat x l).Perm (x :: l) := by
  induction l with
  | nil => exact List.Perm.refl _
  | cons y ys ih =>
    unfold insertRat
    split
    · exact (ih.cons y).trans (List.Perm.swap x y ys)
    · exact List.Perm.refl _

theorem sortRat_perm (l : List ℚ) : (sortRat l).Perm l := by
  induction l with
  | nil => exact List.Perm.refl _
  | cons x xs ih =>
    unfold sortRat
    exact (insertRat_perm x (sortRat xs)).trans (ih.cons x)

/-- The median of a list of positive values is positive. -/
theorem median_pos (l : List ℚ) (hl : ∀ x ∈ l, 0 < x) (med : ℚ)
    (h : median l = some med) : 0 < med := by
  unfold median at h
  rcases ha : (sortRat l).get? (((sortRat l).length - 1) / 2) with _ | a
  · rw [ha] at h
    exact absurd h (by simp)
  rcases hb : (sortRat l).get? ((sortRat l).length / 2) with _ | b
  · rw [ha, hb] at h
    exact absurd h (by simp)
  rw [ha, hb] at h
  have hmed : med = (a + b) / 2 := by
    injection h with h'
    exact h'.symm
  have hamem : a ∈ l := (sortRat_perm l).mem_iff.mp (List.get?_mem ha)
  have hbmem : b ∈ l := (sortRat_perm l).mem_iff.mp (List.get?_mem hb)
  have := hl a hamem
  have := hl b hbmem
  rw [hmed]
  positivity

/-- C9: a month of the active window is flagged as an anomaly iff its value
exceeds 1.5× the median of the strictly positive monthly values of the
column, where the most recent row is excluded from the median when the
exclude-current-month option is set and that row is the selected month. -/
theorem c9_anomaly_iff (excludeFlag lastIsSelected : Bool) (col : List ℚ)
    (i : Nat) (v : ℚ) (hv : col.get? i = some v) :
    ((style_anomalies excludeFlag lastIsSelected col).get? i = some true ↔
      ∃ med, median ((if excludeFlag && lastIsSelected then col.dropLast
          else col).filter (fun x => decide (0 < x))) = some med ∧
        (3 / 2 : ℚ) * med < v) := by
  have hlen : i < col.length := List.get?_eq_some.mp hv |>.1
  have hcol : decide (0 < col.length) = true := by
    simp
    omega
  have hser : (if excludeFlag && decide (0 < col.length) && lastIsSelected then
      col.dropLast else col) =
      (if excludeFlag && lastIsSelected then col.dropLast else col) := by
    rw [hcol]
    cases excludeFlag <;> cases lastIsSelected <;> rfl
  unfold style_anomalies
  rw [hser]
  rcases hmed : median ((if excludeFlag && lastIsSelected then col.dropLast
      else col).filter (fun x => decide (0 < x))) with _ | med
  · change ((List.replicate col.length false).get? i = some true) ↔ _
    have hrep : (List.replicate col.length false).get? i = some false := by
      rw [List.get?_eq_get (by simpa using hlen)]
      simp
    constructor
    · intro h
      rw [hrep] at h
      simp at h
    · rintro ⟨med, hmed', _⟩
      simp at hmed'
  · have hpos : 0 < med := by
      refine median_pos _ ?_ med hmed
      intro x hx
      have := List.mem_filter.mp hx
      simpa using this.2
    change ((if 0 < med then col.map (fun v => decide ((3 / 2 : ℚ) * med < v))
        else List.replicate col.length false).get? i = some true) ↔ _
    rw [if_pos hpos, List.get?_map, hv]
    constructor
    · intro h
      refine ⟨med, rfl, ?_⟩
      have hdec : decide ((3 / 2 : ℚ) * med < v) = true := by
        injection h
      simpa using hdec
    · rintro ⟨med', hmed', hlt⟩
      have hmm : med' = med := by
        injection hmed' with h'
        exact h'.symm
      simp [hmm ▸ hlt]

/-- C9 witness: window [100, 100, 400] with no exclusion — the median of
the positive months is 100, and 400 > 150 is flagged. -/
theorem c9_witness :
    (style_anomalies false false [100, 100, 400]).get? 2 = some true := by
  refine (c9_anomaly_iff false false [100, 100, 400] 2 400 (by decide)).mpr
    ⟨100, ?_, by norm_num⟩
  have h1 : List.filter (fun x => decide ((0 : ℚ) < x)) [100, 100, 400] =
      [100, 100, 400] := by
    norm_num
  have h2 : sortRat [100, 100, 400] = [100, 100, 400] := by
    norm_num [sortRat, insertRat]
  simp only [Bool.and_self, if_neg, Bool.false_eq_true, not_false_iff, h1]
  unfold median
  rw [h2]
  norm_num

end Asr
